import Mathlib

/-!
Shallow embedding of `src/lib/src/main.js` from mochawesome-report-generator.

The JavaScript module builds report file names (timestamp formatting and
sanitization, extension stripping, path resolution), resolves report options,
saves HTML/JSON report files (with an optional uniquification pass when
`overwrite` is false), decides asset-copy freshness, and orchestrates the
asynchronous (`create`) and synchronous (`createSync`) flows.

External collaborators (the `dateformat` library, the renderer, the process
clock) are modelled as explicit oracle parameters; the filesystem holding the
report output files is modelled as an association list from path to content.
-/

namespace MRG

/-- A JavaScript value for the `timestamp` option: a boolean, a string, or
`undefined`.  The JS code distinguishes these with strict equality. -/
inductive TimestampOpt where
  | b (v : Bool)
  | s (v : String)
  | undef
deriving DecidableEq

/-- The character class matched by `\s` in a JavaScript regular expression. -/
def isJsSpace (c : Char) : Bool :=
  c = ' ' || c = '\t' || c = '\n' || c = '\x0b' || c = '\x0c' || c = '\r' ||
  c = '\u00A0' || c = '\u1680' || (0x2000 ≤ c.val && c.val ≤ 0x200A) ||
  c = '\u2028' || c = '\u2029' || c = '\u202F' || c = '\u205F' ||
  c = '\u3000' || c = '\uFEFF'

/-- Global replace of `(,\s*)|,|\s+` by an underscore (main.js line 98).
The boolean argument is true while the scanner sits right after a match whose
trailing `\s*` or `\s+` run was consumed greedily by the regex engine, so a
space seen in that state was already part of the previous match. -/
def replCSt : Bool → List Char → List Char
  | _, [] => []
  | inRun, c :: t =>
    if c = ',' then '_' :: replCSt true t
    else if isJsSpace c then
      if inRun then replCSt true t else '_' :: replCSt true t
    else c :: replCSt false t

/-- Replace of `(,\s*)|,|\s+` starting outside any match. -/
def replCS (l : List Char) : List Char :=
  replCSt false l

/-- Global replace of `\\|\/` by a hyphen (main.js line 100). -/
def replSlash (l : List Char) : List Char :=
  l.map (fun c => if c = '\\' then '-' else if c = '/' then '-' else c)

/-- Global replace of `:` by the empty string (main.js line 102). -/
def replColon (l : List Char) : List Char :=
  l.filter (fun c => c != ':')

/-- The three chained `.replace` calls applied to the timestamp string. -/
def sanitizeTs (s : String) : String :=
  ⟨replColon (replSlash (replCS s.data))⟩

/-- `getTimestampFormat` (main.js lines 71-80): `''`, `'true'` and `true`
select the `isoDateTime` named format; any other value is passed through
unchanged to `dateFormat`. -/
def getTimestampFormat : TimestampOpt → TimestampOpt
  | .s "" => .s "isoDateTime"
  | .s "true" => .s "isoDateTime"
  | .b true => .s "isoDateTime"
  | t => t

/-- The guard `timestamp !== false && timestamp !== 'false'` of main.js
line 94. -/
def timestampEnabled : TimestampOpt → Bool
  | .b false => false
  | .s "false" => false
  | _ => true

/-- The timestamp suffix `` `_${dateFormat(new Date(), format)}` `` after the
three sanitizing replaces (main.js lines 96-102).  `df` is the oracle for
`dateFormat` applied to the current time. -/
def tsSuffix (df : TimestampOpt → String) (t : TimestampOpt) : String :=
  sanitizeTs ("_" ++ df (getTimestampFormat t))

/-- Whether the regex `\.[^.]*?$` (main.js line 13, `fileExtRegex`) matches at
this position of the string: a dot whose remaining tail contains no further
dot, lazily extended to the end anchor. -/
def fileExtMatchAt : List Char → Bool
  | [] => false
  | c :: t => if c = '.' then !(t.contains '.') else false

/-- `reportFilename.replace(fileExtRegex, '')` (main.js line 104): remove the
leftmost (hence last, by the shape of the regex) final dot segment. -/
def stripExtAux : List Char → List Char
  | [] => []
  | c :: t => if fileExtMatchAt (c :: t) then [] else c :: stripExtAux t

/-- String-level wrapper for the extension-stripping replace. -/
def stripExt (s : String) : String :=
  ⟨stripExtAux s.data⟩

/-- The placeholder text inserted by `saveFile` before the extension. -/
def phText : List Char :=
  ['\x7b', '_', '#', '#', '#', '\x7d']

/-- `filename.replace(fileExtRegex, '\x7b_###\x7d$&')` (main.js line 31):
insert the numbered placeholder right before the final dot segment; a dotless
filename is left unchanged. -/
def insertPHAux : List Char → List Char
  | [] => []
  | c :: t =>
    if fileExtMatchAt (c :: t) then phText ++ c :: t
    else c :: insertPHAux t

/-- String-level wrapper for the placeholder-inserting replace. -/
def insertPlaceholder (s : String) : String :=
  ⟨insertPHAux s.data⟩

/-- Split a character list at `/` separators, like `String.split` on `/`. -/
def splitSlashAux : List Char → List Char → List String
  | acc, [] => [⟨acc.reverse⟩]
  | acc, c :: t =>
    if c = '/' then ⟨acc.reverse⟩ :: splitSlashAux [] t
    else splitSlashAux (c :: acc) t

/-- Split a string at `/` separators. -/
def splitSlash (s : String) : List String :=
  splitSlashAux [] s.data

/-- Join path components with `/` separators. -/
def joinSlash : List String → String
  | [] => ""
  | [x] => x
  | x :: y :: t => x ++ "/" ++ joinSlash (y :: t)

/-- Whether a posix path is absolute: it starts with `/`. -/
def isAbs (s : String) : Bool :=
  s.data.head? == some '/'

/-- Node's posix path component normalization: drop empty and `.` components,
resolve `..` against the accumulated prefix (allowed above the root only for
relative paths). -/
def normParts (allowAboveRoot : Bool) (parts : List String) : List String :=
  parts.foldl
    (fun acc part =>
      if part = "" || part = "." then acc
      else if part = ".." then
        if !acc.isEmpty && acc.getLast? != some ".." then acc.dropLast
        else if allowAboveRoot then acc ++ [".."]
        else acc
      else acc ++ [part])
    []

/-- `path.resolve(cwd, a, b)` for posix paths: keep the segments from the last
absolute one onward (Node walks right to left and stops at the first absolute
segment), join and normalize.  In the program `cwd` is `process.cwd()`, which
is always absolute. -/
def pathResolve3 (cwd a b : String) : String :=
  let segs := ([cwd, a, b].filter (fun p => p != "")).foldl
    (fun acc p => if isAbs p then [p] else acc ++ [p]) []
  let abs := (segs.head?.map isAbs).getD false
  let parts := splitSlash (joinSlash segs)
  let norm := normParts (!abs) parts
  if abs then "/" ++ joinSlash norm
  else if norm.isEmpty then "." else joinSlash norm

/-- The report options after `getMergedOptions` has merged user options over
the defaults (the merge itself lives in `src/lib/src/options.js`, outside this
file's source; only the already-merged record is consumed here).
`reportFilename` is `none` when the property is absent, making the
destructuring default `'mochawesome'` of main.js line 92 reachable;
`saveHtml` is `none` when absent, so that the strict `saveHtml !== false`
test of `create` is expressible. -/
structure MergedOptions where
  reportDir : String
  reportFilename : Option String
  timestamp : TimestampOpt
  saveJson : Bool
  saveHtml : Option Bool
  autoOpen : Bool
  overwrite : Bool
  inlineAssets : Bool
  assetsDir : String
  dev : Bool
deriving DecidableEq

/-- `getFilename` (main.js lines 92-106): optional sanitized timestamp suffix,
extension-stripped base name, resolved against the working directory.  `df`
models `dateFormat` evaluated at the `new Date()` taken inside this call. -/
def getFilename (df : TimestampOpt → String) (cwd : String) (m : MergedOptions) : String :=
  let rf := m.reportFilename.getD "mochawesome"
  let ts := if timestampEnabled m.timestamp then tsSuffix df m.timestamp else ""
  pathResolve3 cwd m.reportDir (stripExt rf ++ ts)

/-- Options after `getOptions` has attached the derived output paths. -/
structure ResolvedOptions extends MergedOptions where
  jsonFile : Option String
  htmlFile : String

/-- `getOptions` (main.js lines 116-126): when `saveJson` is set, derive
`jsonFile` by one call to `getFilename`; always derive `htmlFile` by a second
call.  Each call takes its own fresh `new Date()`, hence the two separate
oracles `df1` (first, JSON) and `df2` (second, HTML). -/
def getOptions (df1 df2 : TimestampOpt → String) (cwd : String)
    (m : MergedOptions) : ResolvedOptions :=
  { m with
    jsonFile := if m.saveJson then some (getFilename df1 cwd m ++ ".json") else none
    htmlFile := getFilename df2 cwd m ++ ".html" }

/-- The report output files on disk: an association from path to content.
A write prepends; `lookup` returns the most recent write for a path. -/
structure FS where
  files : List (String × String)
deriving DecidableEq

/-- Write (create or overwrite) a file, as `fs.outputFile` /
`fs.outputFileSync` do. -/
def fsWrite (fs : FS) (name content : String) : FS :=
  ⟨(name, content) :: fs.files⟩

/-- Whether a path currently exists, as `fs.existsSync` reports. -/
def existsFile (fs : FS) (name : String) : Bool :=
  (fs.files.lookup name).isSome

/-- Zero-pad a number to (at least) three digits, the width fixed by the
three `#` characters of the placeholder. -/
def pad3 (n : Nat) : String :=
  if n < 10 then "00" ++ toString n
  else if n < 100 then "0" ++ toString n
  else toString n

/-- The n-th candidate name tried by the uniqueness search: the pattern with
the placeholder deleted, then with `_001`, `_002`, ... substituted. -/
def phCandidate (pre post : String) : Nat → String
  | 0 => pre ++ post
  | n + 1 => pre ++ "_" ++ pad3 (n + 1) ++ post

/-- Split a pattern at the leftmost occurrence of the placeholder. -/
def splitPHAux : List Char → Option (List Char × List Char)
  | [] => none
  | c :: t =>
    if phText.isPrefixOf (c :: t) then some ([], (c :: t).drop phText.length)
    else
      match splitPHAux t with
      | some (a, b) => some (c :: a, b)
      | none => none

/-- Split a patterned filename into the text before and after the
placeholder, when the placeholder occurs. -/
def splitPH (s : String) : Option (String × String) :=
  (splitPHAux s.data).map (fun p => (⟨p.1⟩, ⟨p.2⟩))

/-- Search from candidate `n` for the first candidate that does not already
exist; the fuel is always called with more candidates than existing files, so
the search cannot run out in reach of the theorems below. -/
def findFreeN (fs : FS) (pre post : String) : Nat → Nat → Nat
  | n, 0 => n
  | n, fuel + 1 =>
    if existsFile fs (phCandidate pre post n) then findFreeN fs pre post (n + 1) fuel
    else n

/-- Modelled from the spec: `fsu.writeFileUnique` (an external dependency, no
source in this repository) takes the patterned name, searches for the first
available name not colliding with an existing file — the pattern with the
placeholder removed, then `_001`, `_002`, ... — writes there and reports the
actually used name.  Without a placeholder in the name it writes directly
(`force: true`). -/
def writeFileUnique (fs : FS) (patterned data : String) : String × FS :=
  match splitPH patterned with
  | none => (patterned, fsWrite fs patterned data)
  | some (pre, post) =>
    let n := findFreeN fs pre post 0 (fs.files.length + 1)
    let name := phCandidate pre post n
    (name, fsWrite fs name data)

/-- `saveFile` (main.js lines 24-38): plain write when `overwrite` is set,
otherwise the uniqueness search over the placeholder pattern derived from the
filename. -/
def saveFile (fs : FS) (filename data : String) (overwrite : Bool) : String × FS :=
  if overwrite then (filename, fsWrite fs filename data)
  else writeFileUnique fs (insertPlaceholder filename) data

/-- A JSON-serializable JavaScript value. -/
inductive Json where
  | str (s : String)
  | num (n : Int)
  | bool (b : Bool)
  | null
  | arr (xs : List Json)
  | obj (kvs : List (String × Json))

/-- String escaping as performed by the `JSON.stringify` builtin (for the
character ranges exercised here). -/
def escChar (c : Char) : List Char :=
  if c = '\x22' then ['\\', '\x22']
  else if c = '\\' then ['\\', '\\']
  else if c = '\n' then ['\\', 'n']
  else if c = '\r' then ['\\', 'r']
  else if c = '\t' then ['\\', 't']
  else [c]

/-- Escape every character of a string for a JSON string literal. -/
def jsonEscape (s : String) : String :=
  ⟨s.data.foldr (fun c acc => escChar c ++ acc) []⟩

/-- A quoted, escaped JSON string literal. -/
def jsonQuote (s : String) : String :=
  "\x22" ++ jsonEscape s ++ "\x22"

mutual

/-- The `JSON.stringify(value)` builtin in its compact (no indent) form. -/
def jsonStringify : Json → String
  | .str s => jsonQuote s
  | .num n => toString n
  | .bool b => cond b "true" "false"
  | .null => "null"
  | .arr xs => "[" ++ jsonArrItems xs ++ "]"
  | .obj kvs => "\x7b" ++ jsonObjItems kvs ++ "\x7d"

/-- Comma-joined compact serializations of array elements. -/
def jsonArrItems : List Json → String
  | [] => ""
  | [x] => jsonStringify x
  | x :: y :: t => jsonStringify x ++ "," ++ jsonArrItems (y :: t)

/-- Comma-joined compact serializations of object members. -/
def jsonObjItems : List (String × Json) → String
  | [] => ""
  | [(k, v)] => jsonQuote k ++ ":" ++ jsonStringify v
  | (k, v) :: y :: t =>
    jsonQuote k ++ ":" ++ jsonStringify v ++ "," ++ jsonObjItems (y :: t)

end

/-- The indentation prefix at nesting depth `d` for a two-space indent. -/
def indentStr (d : Nat) : String :=
  ⟨List.replicate (2 * d) ' '⟩

mutual

/-- The `JSON.stringify(value, null, 2)` builtin: pretty-printed with a
two-space indent. -/
def jsonPretty (d : Nat) : Json → String
  | .arr [] => "[]"
  | .arr (x :: xs) =>
    "[\n" ++ jsonPrettyArr (d + 1) (x :: xs) ++ "\n" ++ indentStr d ++ "]"
  | .obj [] => "\x7b\x7d"
  | .obj (kv :: kvs) =>
    "\x7b\n" ++ jsonPrettyObj (d + 1) (kv :: kvs) ++ "\n" ++ indentStr d ++ "\x7d"
  | v => jsonStringify v

/-- Indented, `,\n`-joined pretty serializations of array elements. -/
def jsonPrettyArr (d : Nat) : List Json → String
  | [] => ""
  | [x] => indentStr d ++ jsonPretty d x
  | x :: y :: t =>
    indentStr d ++ jsonPretty d x ++ ",\n" ++ jsonPrettyArr d (y :: t)

/-- Indented, `,\n`-joined pretty serializations of object members. -/
def jsonPrettyObj (d : Nat) : List (String × Json) → String
  | [] => ""
  | [(k, v)] => indentStr d ++ jsonQuote k ++ ": " ++ jsonPretty d v
  | (k, v) :: y :: t =>
    indentStr d ++ jsonQuote k ++ ": " ++ jsonPretty d v ++ ",\n" ++
      jsonPrettyObj d (y :: t)

end

/-- The `data` argument of `create`/`createSync`: either a pre-serialized
string or a structured value (JS `typeof data === 'object'`). -/
inductive ReportData where
  | str (s : String)
  | obj (j : Json)

/-- The normalization at the top of `prepare` (main.js lines 217-220): a
structured value is serialized compactly, a string is passed through. -/
def serializeData : ReportData → String
  | .str s => s
  | .obj j => jsonStringify j

/-- The original `data` argument as the JSON value that
`JSON.stringify(data, null, 2)` receives in `create` (main.js line 270). -/
def dataToJson : ReportData → Json
  | .str s => Json.str s
  | .obj j => j

/-- `JSON.stringify(data, null, 2)` applied to the original `data` argument
of `create`. -/
def stringifyOriginal (d : ReportData) : String :=
  jsonPretty 0 (dataToJson d)

/-- The observable state of the assets directory for the freshness check:
whether the directory exists, and the result of reading `app.css` inside it
(`none` when the read throws). -/
structure AssetFs where
  existsDir : Bool
  readCss : Option String
deriving DecidableEq

/-- The greedy match of `\d+\.\d+\.\d+` starting at the head of the list, if
any. -/
def semverAt (cs : List Char) : Option (List Char) :=
  let d1 := cs.takeWhile Char.isDigit
  if d1.isEmpty then none
  else
    match cs.dropWhile Char.isDigit with
    | '.' :: r2 =>
      let d2 := r2.takeWhile Char.isDigit
      if d2.isEmpty then none
      else
        match r2.dropWhile Char.isDigit with
        | '.' :: r3 =>
          let d3 := r3.takeWhile Char.isDigit
          if d3.isEmpty then none
          else some (d1 ++ '.' :: (d2 ++ '.' :: d3))
        | _ => none
    | _ => none

/-- `/\d+\.\d+\.\d+/.exec(appCss)`: the leftmost match of the semantic
version pattern (`appCssVersion[0]` in main.js line 160). -/
def firstSemver : List Char → Option (List Char)
  | [] => none
  | c :: t =>
    match semverAt (c :: t) with
    | some m => some m
    | none => firstSemver t

/-- `_shouldCopyAssets` (main.js lines 153-169): copy when the directory is
missing, the stylesheet is unreadable (the exception is absorbed), the version
pattern is absent, or the first match differs from the package version. -/
def _shouldCopyAssets (pkgVersion : String) (afs : AssetFs) : Bool :=
  if !afs.existsDir then true
  else
    match afs.readCss with
    | none => true
    | some appCss =>
      match firstSemver appCss.data with
      | none => true
      | some v => if String.mk v != pkgVersion then true else false

/-- The environment `copyAssets` runs in: the running package's version, the
state of the assets directory, and the source paths under `distDir`. -/
structure AssetEnv where
  pkgVersion : String
  assetFs : AssetFs
  distFiles : List String

/-- Whether `needle` occurs as a contiguous run inside `hay`. -/
def listIsInfixOf (needle hay : List Char) : Bool :=
  match hay with
  | [] => needle.isEmpty
  | _ :: t => needle.isPrefixOf hay || listIsInfixOf needle t

/-- `/inline/.test(src)`: the literal `inline` occurs in the path. -/
def hasInline (src : String) : Bool :=
  listIsInfixOf "inline".data src.data

/-- `copyAssets` (main.js lines 176-182): when the freshness check asks for a
copy, `fs.copySync` copies the source tree filtered by
`src => !/inline/.test(src)`; the result is the list of copied paths. -/
def copyAssets (env : AssetEnv) : List String :=
  if _shouldCopyAssets env.pkgVersion env.assetFs then
    env.distFiles.filter (fun src => !(hasInline src))
  else []

/-- The ambient effects `create`/`createSync` draw on: the working directory,
the `dateFormat` oracle of each of the two `getFilename` calls, the renderer
(an external collaborator, a function of the serialized data), and the report
files already on disk. -/
structure CreateEnv where
  cwd : String
  df1 : TimestampOpt → String
  df2 : TimestampOpt → String
  render : String → String
  fs : FS

/-- `prepare` (main.js lines 215-241), restricted to the report files: the
full HTML document string and the resolved options. -/
def prepare (env : CreateEnv) (data : ReportData) (m : MergedOptions) :
    String × ResolvedOptions :=
  ("<!doctype html>\n" ++ env.render (serializeData data),
   getOptions env.df1 env.df2 env.cwd m)

/-- What `create` resolves with and its effects: the two-element result array
`[htmlResult, jsonResult]`, the files on disk afterwards, and the files handed
to the opener. -/
structure CreateResult where
  htmlResult : Option String
  jsonResult : Option String
  fs : FS
  opened : List String
deriving DecidableEq

/-- `create` (main.js lines 251-274): save the HTML file unless `saveHtml` is
strictly `false` (opening it when `autoOpen` is set), save the pretty-printed
original data as JSON when `saveJson` is set, and resolve with both results
(`null` standing for a skipped save). -/
def create (env : CreateEnv) (data : ReportData) (m : MergedOptions) : CreateResult :=
  let p := prepare env data m
  let html := p.1
  let ropts := p.2
  let hr : Option String × FS :=
    if ropts.saveHtml = some false then (none, env.fs)
    else
      let s := saveFile env.fs ropts.htmlFile html ropts.overwrite
      (some s.1, s.2)
  let jr : Option String × FS :=
    if ropts.saveJson then
      match ropts.jsonFile with
      | some jf =>
        let s := saveFile hr.2 jf (stringifyOriginal data) ropts.overwrite
        (some s.1, s.2)
      | none => (none, hr.2)
    else (none, hr.2)
  let opened : List String :=
    match hr.1, ropts.autoOpen with
    | some f, true => [f]
    | _, _ => []
  ⟨hr.1, jr.1, jr.2, opened⟩

/-- The effects of `createSync`: the files on disk afterwards and the files
handed to the opener. -/
structure SyncResult where
  fs : FS
  opened : List String
deriving DecidableEq

/-- `createSync` (main.js lines 283-288): resolve and render exactly as
`create` does, write the HTML file with `fs.outputFileSync` (a plain
overwrite, no uniqueness search, no JSON file), then open it when `autoOpen`
is set. -/
def createSync (env : CreateEnv) (data : ReportData) (m : MergedOptions) : SyncResult :=
  let p := prepare env data m
  ⟨fsWrite env.fs p.2.htmlFile p.1,
   if p.2.autoOpen then [p.2.htmlFile] else []⟩

/-! ## Helper lemmas -/

/-- Rebuilding a string from its characters is the identity. -/
lemma mk_data (s : String) : (⟨s.data⟩ : String) = s := rfl

/-- Appending the same string on the right is injective. -/
lemma append_cancel_r {a b s : String} (h : a ++ s = b ++ s) : a = b := by
  apply String.ext
  have hd := congrArg String.data h
  rw [String.data_append, String.data_append] at hd
  exact List.append_cancel_right hd

/-- The extension-stripping replace removes the final dot segment. -/
lemma stripExtAux_append (a b : List Char) (hb : ('.' : Char) ∉ b) :
    stripExtAux (a ++ '.' :: b) = a := by
  induction a with
  | nil => simp [stripExtAux, fileExtMatchAt, hb]
  | cons c t ih =>
    have hc : ((t ++ '.' :: b).contains '.') = true :=
      List.elem_iff.mpr (by simp)
    simp [stripExtAux, fileExtMatchAt, hc, ih]

/-- The extension-stripping replace leaves a dotless name unchanged. -/
lemma stripExtAux_nodot : ∀ (l : List Char), ('.' : Char) ∉ l → stripExtAux l = l := by
  intro l
  induction l with
  | nil => intro _; rfl
  | cons c t ih =>
    intro h'
    have h2 : ('.' : Char) ∉ t := fun hm => h' (List.mem_cons_of_mem c hm)
    have hc : c ≠ '.' := fun he => h' (he ▸ List.mem_cons_self c t)
    simp [stripExtAux, fileExtMatchAt, hc, ih h2]

/-- Characters surviving the comma/whitespace replace are neither commas nor
whitespace. -/
lemma mem_replCSt {c : Char} :
    ∀ (l : List Char) (st : Bool), c ∈ replCSt st l → c ≠ ',' ∧ isJsSpace c = false := by
  intro l
  induction l with
  | nil => intro st h; simp [replCSt] at h
  | cons d t ih =>
    intro st h
    by_cases h1 : d = ','
    · rw [replCSt, if_pos h1] at h
      rcases List.mem_cons.mp h with rfl | hm
      · exact ⟨by decide, by decide⟩
      · exact ih true hm
    · by_cases h2 : isJsSpace d = true
      · rw [replCSt, if_neg h1, if_pos h2] at h
        cases st with
        | true => exact ih true (by simpa using h)
        | false =>
          rcases List.mem_cons.mp (by simpa using h) with rfl | hm
          · exact ⟨by decide, by decide⟩
          · exact ih true hm
      · rw [replCSt, if_neg h1, if_neg h2] at h
        rcases List.mem_cons.mp h with rfl | hm
        · exact ⟨h1, by simpa using h2⟩
        · exact ih false hm

/-- No character of a sanitized timestamp is a comma, whitespace, slash,
backslash or colon. -/
lemma sanitizeTs_chars (s : String) :
    ∀ c ∈ (sanitizeTs s).data,
      ¬(c = ',' ∨ isJsSpace c = true ∨ c = '/' ∨ c = '\\' ∨ c = ':') := by
  intro c hc hbad
  have hfil := List.mem_filter.mp hc
  have hcolon : c ≠ ':' := by simpa using hfil.2
  obtain ⟨a, ha, hfa⟩ := List.mem_map.mp hfil.1
  have hCS := mem_replCSt _ _ ha
  by_cases hb1 : a = '\\'
  · rw [if_pos hb1] at hfa
    rcases hbad with h | h | h | h | h <;> rw [← hfa] at h <;> exact absurd h (by decide)
  · by_cases hb2 : a = '/'
    · rw [if_neg hb1, if_pos hb2] at hfa
      rcases hbad with h | h | h | h | h <;> rw [← hfa] at h <;> exact absurd h (by decide)
    · rw [if_neg hb1, if_neg hb2] at hfa
      subst hfa
      rcases hbad with h | h | h | h | h
      · exact hCS.1 h
      · rw [hCS.2] at h; cases h
      · exact hb2 h
      · exact hb1 h
      · exact hcolon h

/-! ## C10 -/

/-- C10: the filename-construction step strips everything from the last dot
to the end of the string — even when that final dot segment is not a
conventional file extension (`report.v2` becomes `report`) — and leaves a
dotless name unchanged. -/
theorem c10_strip_last_dot_segment :
    (∀ a b : String, b.data.contains '.' = false → stripExt (a ++ "." ++ b) = a)
    ∧ (∀ s : String, s.data.contains '.' = false → stripExt s = s)
    ∧ stripExt "report.v2" = "report" := by
  refine ⟨?_, ?_, by decide⟩
  · intro a b hb
    apply String.ext
    show stripExtAux (a ++ "." ++ b).data = a.data
    have hdata : (a ++ "." ++ b).data = a.data ++ '.' :: b.data := by
      rw [String.data_append, String.data_append]
      simp
    rw [hdata, stripExtAux_append _ _ (by simpa using hb)]
  · intro s hs
    apply String.ext
    exact stripExtAux_nodot s.data (by simpa using hs)

/-- C10 witness: the theorem applied at `report.v2`. -/
theorem c10_witness : stripExt ("report" ++ "." ++ "v2") = "report" :=
  c10_strip_last_dot_segment.1 "report" "v2" (by decide)

/-! ## C2 -/

/-- C2: with the timestamp option boolean `false` or the string `"false"`,
`getFilename` is exactly `path.resolve(cwd, reportDir, reportFilename minus
its extension)`: no timestamp suffix and no file extension. -/
theorem c2_no_timestamp_suffix (df : TimestampOpt → String) (cwd : String)
    (m : MergedOptions)
    (h : m.timestamp = .b false ∨ m.timestamp = .s "false") :
    getFilename df cwd m =
      pathResolve3 cwd m.reportDir (stripExt (m.reportFilename.getD "mochawesome")) := by
  rcases h with h | h <;> simp [getFilename, h, timestampEnabled]

/-- C2 witness: the theorem applied at a concrete option record with
`timestamp := false`. -/
theorem c2_witness :
    getFilename (fun _ => "TS") "/cwd"
      { reportDir := "out", reportFilename := some "report.html",
        timestamp := .b false, saveJson := false, saveHtml := none,
        autoOpen := false, overwrite := true, inlineAssets := false,
        assetsDir := "assets", dev := false } =
      pathResolve3 "/cwd" "out" (stripExt "report.html") :=
  c2_no_timestamp_suffix (fun _ => "TS") "/cwd" _ (Or.inl rfl)

/-! ## C3 -/

/-- C3: for every enabled timestamp option (``""``, `"true"` and `true`
selecting the default `isoDateTime` format) and every string the date
formatter returns, the appended suffix is the sanitized timestamp, and the
sanitized timestamp contains no comma, no whitespace, no forward slash, no
backslash and no colon. -/
theorem c3_sanitized_suffix (df : TimestampOpt → String) (cwd : String)
    (m : MergedOptions) (h : timestampEnabled m.timestamp = true) :
    getFilename df cwd m =
      pathResolve3 cwd m.reportDir
        (stripExt (m.reportFilename.getD "mochawesome") ++ tsSuffix df m.timestamp)
    ∧ (∀ c ∈ (tsSuffix df m.timestamp).data,
        ¬(c = ',' ∨ isJsSpace c = true ∨ c = '/' ∨ c = '\\' ∨ c = ':'))
    ∧ getTimestampFormat (.s "") = .s "isoDateTime"
    ∧ getTimestampFormat (.s "true") = .s "isoDateTime"
    ∧ getTimestampFormat (.b true) = .s "isoDateTime" :=
  ⟨by simp [getFilename, h], sanitizeTs_chars _, rfl, rfl, rfl⟩

/-- C3 witness: the theorem applied at the empty-string timestamp option and
a formatter returning an ISO date-time. -/
theorem c3_witness :
    getFilename (fun _ => "2024-01-02T10:30:05+00:00") "/cwd"
      { reportDir := "out", reportFilename := some "report.html",
        timestamp := .s "", saveJson := false, saveHtml := none,
        autoOpen := false, overwrite := true, inlineAssets := false,
        assetsDir := "assets", dev := false } =
      pathResolve3 "/cwd" "out"
        (stripExt "report.html" ++
          tsSuffix (fun _ => "2024-01-02T10:30:05+00:00") (.s "")) :=
  (c3_sanitized_suffix (fun _ => "2024-01-02T10:30:05+00:00") "/cwd" _ (by decide)).1

/-! ## C1 -/

/-- A date-format oracle whose formatted time is `A`. -/
def dfA : TimestampOpt → String := fun _ => "A"

/-- A date-format oracle whose formatted time is `B`: the clock ticked past a
format boundary between the two `new Date()` calls of `getOptions`. -/
def dfB : TimestampOpt → String := fun _ => "B"

/-- Merged options with `saveJson` and an enabled custom timestamp format. -/
def mTsOn : MergedOptions :=
  { reportDir := "out", reportFilename := some "r", timestamp := .s "fmt",
    saveJson := true, saveHtml := none, autoOpen := false, overwrite := true,
    inlineAssets := false, assetsDir := "assets", dev := false }

/-- C1 counterexample: with `saveJson` set and an enabled timestamp, when the
two `dateFormat` calls of `getOptions` observe different times (formatted `A`
and `B`), `jsonFile` and `htmlFile` share no base at all: there is no string
`base` with `jsonFile = base ++ ".json"` and `htmlFile = base ++ ".html"`. -/
theorem c1_counterexample :
    mTsOn.saveJson = true ∧
    ¬ ∃ base : String,
        (getOptions dfA dfB "/c" mTsOn).jsonFile = some (base ++ ".json") ∧
        (getOptions dfA dfB "/c" mTsOn).htmlFile = base ++ ".html" := by
  refine ⟨rfl, ?_⟩
  rintro ⟨base, hj, hh⟩
  have hj2 : some (base ++ ".json") = some ("/c/out/r_A" ++ ".json") := by
    rw [← hj]; rfl
  have hb : base = "/c/out/r_A" := append_cancel_r (Option.some.inj hj2)
  rw [hb] at hh
  have hhv : (getOptions dfA dfB "/c" mTsOn).htmlFile = "/c/out/r_B.html" := rfl
  rw [hhv] at hh
  exact absurd hh (by decide)

/-- C1 amended: whenever `saveJson` is set and either the timestamp suffix is
disabled or the two `dateFormat` calls of `getOptions` return the same string
for the resolved format (in particular when no clock tick separates them),
`jsonFile` and `htmlFile` are derived from one and the same resolved base,
`jsonFile = base ++ ".json"` and `htmlFile = base ++ ".html"`. -/
theorem c1_shared_base_when_formats_agree
    (df1 df2 : TimestampOpt → String) (cwd : String) (m : MergedOptions)
    (hsj : m.saveJson = true)
    (h : timestampEnabled m.timestamp = false ∨
      df1 (getTimestampFormat m.timestamp) = df2 (getTimestampFormat m.timestamp)) :
    ∃ base : String,
      (getOptions df1 df2 cwd m).jsonFile = some (base ++ ".json") ∧
      (getOptions df1 df2 cwd m).htmlFile = base ++ ".html" := by
  refine ⟨getFilename df1 cwd m, by simp [getOptions, hsj], ?_⟩
  have he : getFilename df2 cwd m = getFilename df1 cwd m := by
    rcases h with h | h
    · simp [getFilename, h]
    · simp [getFilename, tsSuffix, h]
  simp [getOptions, he]

/-- C1 witness: the amended theorem applied with the two calls observing the
same formatted time. -/
theorem c1_witness :
    ∃ base : String,
      (getOptions dfA dfA "/c" mTsOn).jsonFile = some (base ++ ".json") ∧
      (getOptions dfA dfA "/c" mTsOn).htmlFile = base ++ ".html" :=
  c1_shared_base_when_formats_agree dfA dfA "/c" mTsOn rfl (Or.inr rfl)

/-! ## C4 -/

/-- C4: the freshness check returns true exactly when the assets directory
does not exist, reading the stylesheet fails (the error being absorbed), no
semantic-version pattern occurs in it, or the first match differs from the
package version; it returns false exactly in the remaining case. -/
theorem c4_shouldCopyAssets_iff (v : String) (afs : AssetFs) :
    _shouldCopyAssets v afs = true ↔
      afs.existsDir = false ∨ afs.readCss = none ∨
      (∃ css, afs.readCss = some css ∧ firstSemver css.data = none) ∨
      (∃ css ver, afs.readCss = some css ∧ firstSemver css.data = some ver ∧
        String.mk ver ≠ v) := by
  obtain ⟨ed, rc⟩ := afs
  cases ed with
  | false => simp [_shouldCopyAssets]
  | true =>
    cases rc with
    | none => simp [_shouldCopyAssets]
    | some css =>
      cases hfs : firstSemver css.data with
      | none => simp [_shouldCopyAssets, hfs]
      | some ver =>
        by_cases hv : String.mk ver = v
        · simp [_shouldCopyAssets, hfs, hv]
        · simp [_shouldCopyAssets, hfs, hv]

/-- C4 witness: the theorem applied at a missing assets directory. -/
theorem c4_witness :
    _shouldCopyAssets "1.2.3" ⟨false, none⟩ = true ↔
      (⟨false, none⟩ : AssetFs).existsDir = false ∨
      (⟨false, none⟩ : AssetFs).readCss = none ∨
      (∃ css, (⟨false, none⟩ : AssetFs).readCss = some css ∧
        firstSemver css.data = none) ∨
      (∃ css ver, (⟨false, none⟩ : AssetFs).readCss = some css ∧
        firstSemver css.data = some ver ∧ String.mk ver ≠ "1.2.3") :=
  c4_shouldCopyAssets_iff "1.2.3" ⟨false, none⟩

/-! ## C9 -/

/-- C9: a path is copied by `copyAssets` exactly when the freshness check
asked for a copy, the path comes from the source asset directory, and the
substring `inline` does not occur in it. -/
theorem c9_copyAssets_filter (env : AssetEnv) (p : String) :
    p ∈ copyAssets env ↔
      _shouldCopyAssets env.pkgVersion env.assetFs = true ∧
        p ∈ env.distFiles ∧ hasInline p = false := by
  cases h : _shouldCopyAssets env.pkgVersion env.assetFs with
  | false => simp [copyAssets, h]
  | true => simp [copyAssets, h, List.mem_filter]

/-! ## Persistence-layer lemmas -/

/-- A write is visible at its own path. -/
lemma lookup_fsWrite_self (fs : FS) (n c : String) :
    (fsWrite fs n c).files.lookup n = some c := by
  simp [fsWrite, List.lookup]

/-- A write leaves every other path unchanged. -/
lemma lookup_fsWrite_ne {p n : String} (fs : FS) (c : String) (h : p ≠ n) :
    (fsWrite fs n c).files.lookup p = fs.files.lookup p := by
  have hb : (p == n) = false := beq_eq_false_iff_ne.mpr h
  simp [fsWrite, List.lookup, hb]

/-- Whatever name `saveFile` reports, the data was written there. -/
lemma saveFile_lookup_self (fs : FS) (fn d : String) (ow : Bool) :
    ((saveFile fs fn d ow).2).files.lookup (saveFile fs fn d ow).1 = some d := by
  cases ow with
  | true => simp [saveFile, lookup_fsWrite_self]
  | false =>
    cases h : splitPH (insertPlaceholder fn) with
    | none => simp [saveFile, writeFileUnique, h, lookup_fsWrite_self]
    | some pr => simp [saveFile, writeFileUnique, h, lookup_fsWrite_self]

/-! ## C5 -/

/-- A default environment: empty disk, constant formatter and renderer. -/
def envEx : CreateEnv :=
  { cwd := "/cwd", df1 := fun _ => "", df2 := fun _ => "",
    render := fun _ => "R", fs := ⟨[]⟩ }

/-- The empty-object report data of the spec's `create({}, ...)` examples. -/
def dataEx : ReportData := .obj (Json.obj [])

/-- Plain merged options: no timestamp, save HTML only, overwrite. -/
def mPlain : MergedOptions :=
  { reportDir := "out", reportFilename := some "report", timestamp := .b false,
    saveJson := false, saveHtml := some true, autoOpen := false, overwrite := true,
    inlineAssets := false, assetsDir := "assets", dev := false }

/-- C5: `create` resolves with the pair `[htmlResult, jsonResult]`; the HTML
slot is `null` exactly when `saveHtml` is explicitly `false`, the JSON slot
is `null` exactly when `saveJson` is off; in particular
`create({}, (saveJson:false, saveHtml:true))` resolves with the HTML filename
and `null`, and `create({}, (saveJson:true, saveHtml:false))` resolves with
`null` and the JSON filename. -/
theorem c5_create_flags :
    (∀ env data m,
        ((create env data m).htmlResult = none ↔ m.saveHtml = some false)
      ∧ ((create env data m).jsonResult = none ↔ m.saveJson = false))
    ∧ (create envEx dataEx mPlain).htmlResult = some "/cwd/out/report.html"
    ∧ (create envEx dataEx mPlain).jsonResult = none
    ∧ (create envEx dataEx
        { mPlain with saveJson := true, saveHtml := some false }).htmlResult = none
    ∧ (create envEx dataEx
        { mPlain with saveJson := true, saveHtml := some false }).jsonResult
        = some "/cwd/out/report.json" := by
  refine ⟨?_, by rfl, by rfl, by rfl, by rfl⟩
  intro env data m
  constructor
  · by_cases hh : m.saveHtml = some false
    · simp [create, prepare, getOptions, hh]
    · simp [create, prepare, getOptions, hh]
  · by_cases hj : m.saveJson = true
    · simp [create, prepare, getOptions, hj]
    · simp [create, prepare, getOptions, hj, Bool.not_eq_true m.saveJson ▸ hj]

/-! ## C6 -/

/-- A sample structured data object. -/
def jC6 : Json := Json.obj [("a", Json.num 1)]

/-- C6: with `saveJson` set, the content written to the JSON file is the
two-space-indent `JSON.stringify` of the original `data` object, while the
renderer consumes the compact serialization — and pretty-printing the data is
not the same as pretty-printing the compact serialized string. -/
theorem c6_json_pretty_of_original :
    (∀ env (j : Json) m, m.saveJson = true →
      ∃ f, (create env (.obj j) m).jsonResult = some f ∧
        (create env (.obj j) m).fs.files.lookup f = some (jsonPretty 0 j))
    ∧ serializeData (.obj jC6) = jsonStringify jC6
    ∧ jsonPretty 0 jC6 ≠ jsonPretty 0 (Json.str (jsonStringify jC6)) := by
  refine ⟨?_, rfl, by decide⟩
  intro env j m hsj
  simp only [create, prepare, getOptions, hsj, if_true, stringifyOriginal, dataToJson]
  exact ⟨_, rfl, saveFile_lookup_self _ _ _ _⟩

/-- C6 witness: the theorem applied at the sample object and options. -/
theorem c6_witness :
    ∃ f, (create envEx (.obj jC6) { mPlain with saveJson := true }).jsonResult = some f ∧
      (create envEx (.obj jC6) { mPlain with saveJson := true }).fs.files.lookup f
        = some (jsonPretty 0 jC6) :=
  c6_json_pretty_of_original.1 envEx jC6 _ rfl

/-! ## C8 -/

/-- C8: `createSync` writes exactly one file — the resolved `htmlFile`,
prepended to the disk as a plain overwrite — leaves every other path
untouched, ignores the `overwrite` and `saveJson` options entirely (no
uniquification path, no JSON file), and hands the HTML file to the opener
exactly when `autoOpen` is set. -/
theorem c8_createSync (env : CreateEnv) (data : ReportData) (m : MergedOptions) :
    ((createSync env data m).fs.files.lookup
        (getOptions env.df1 env.df2 env.cwd m).htmlFile
      = some ("<!doctype html>\n" ++ env.render (serializeData data)))
    ∧ ((createSync env data m).fs.files
        = ((getOptions env.df1 env.df2 env.cwd m).htmlFile,
            "<!doctype html>\n" ++ env.render (serializeData data)) :: env.fs.files)
    ∧ (∀ p, p ≠ (getOptions env.df1 env.df2 env.cwd m).htmlFile →
        (createSync env data m).fs.files.lookup p = env.fs.files.lookup p)
    ∧ ((createSync env data m).opened
        = if m.autoOpen then [(getOptions env.df1 env.df2 env.cwd m).htmlFile] else [])
    ∧ (∀ b, createSync env data { m with overwrite := b } = createSync env data m)
    ∧ (∀ b, createSync env data { m with saveJson := b } = createSync env data m) :=
  ⟨lookup_fsWrite_self _ _ _, rfl,
   fun _ hp => lookup_fsWrite_ne _ _ hp, rfl,
   fun _ => rfl, fun _ => rfl⟩

/-- C8 witness: the theorem applied at the sample environment and options. -/
theorem c8_witness :
    (createSync envEx dataEx mPlain).fs.files.lookup
        (getOptions envEx.df1 envEx.df2 envEx.cwd mPlain).htmlFile
      = some ("<!doctype html>\n" ++ envEx.render (serializeData dataEx)) :=
  (c8_createSync envEx dataEx mPlain).1

/-! ## C7 -/

/-- The placeholder-inserting replace lands right before the extension. -/
lemma insertPHAux_append (a b : List Char) (hb : ('.' : Char) ∉ b) :
    insertPHAux (a ++ '.' :: b) = a ++ phText ++ '.' :: b := by
  induction a with
  | nil => simp [insertPHAux, fileExtMatchAt, hb]
  | cons c t ih =>
    have hc : ((t ++ '.' :: b).contains '.') = true :=
      List.elem_iff.mpr (by simp)
    simp [insertPHAux, fileExtMatchAt, hc, ih]

/-- Splitting at the placeholder recovers the two surrounding pieces when the
prefix cannot start a placeholder itself. -/
lemma splitPHAux_append (a r : List Char) (ha : ('\x7b' : Char) ∉ a) :
    splitPHAux (a ++ phText ++ r) = some (a, r) := by
  induction a with
  | nil =>
    have hpre : phText.isPrefixOf ('\x7b' :: (['_', '#', '#', '#', '\x7d'] ++ r)) = true := by
      show phText.isPrefixOf (phText ++ r) = true
      simp [List.isPrefixOf_iff_prefix]
    show splitPHAux ('\x7b' :: (['_', '#', '#', '#', '\x7d'] ++ r)) = some ([], r)
    rw [splitPHAux, if_pos hpre]
    show some (([] : List Char), (phText ++ r).drop phText.length) = some ([], r)
    rw [List.drop_left]
  | cons c t ih =>
    have hc : c ≠ '\x7b' := fun he => ha (he ▸ List.mem_cons_self c t)
    have ht : ('\x7b' : Char) ∉ t := fun hm => ha (List.mem_cons_of_mem c hm)
    have hb : (('\x7b' : Char) == c) = false := beq_eq_false_iff_ne.mpr (Ne.symm hc)
    have hnp : phText.isPrefixOf (c :: (t ++ phText ++ r)) = false := by
      simp [phText, List.isPrefixOf, hb]
    show splitPHAux (c :: (t ++ phText ++ r)) = some (c :: t, r)
    rw [splitPHAux, if_neg (by rw [hnp]; exact Bool.false_ne_true), ih ht]

/-- The uniqueness search returns the first free candidate at or after its
starting index, given enough fuel to reach a free one. -/
lemma findFreeN_first_free (fs : FS) (pre post : String) :
    ∀ (fuel n : Nat),
      (∃ j, j < fuel ∧ existsFile fs (phCandidate pre post (n + j)) = false) →
      existsFile fs (phCandidate pre post (findFreeN fs pre post n fuel)) = false
      ∧ n ≤ findFreeN fs pre post n fuel
      ∧ ∀ i, n ≤ i → i < findFreeN fs pre post n fuel →
          existsFile fs (phCandidate pre post i) = true := by
  intro fuel
  induction fuel with
  | zero =>
    rintro n ⟨j, hj, _⟩
    exact absurd hj (Nat.not_lt_zero j)
  | succ f ih =>
    rintro n ⟨j, hj, hfree⟩
    cases hex : existsFile fs (phCandidate pre post n) with
    | false =>
      rw [findFreeN, if_neg (by simp [hex])]
      exact ⟨hex, Nat.le_refl n, fun i h1 h2 => absurd h1 (Nat.not_le.mpr h2)⟩
    | true =>
      rw [findFreeN, if_pos (by simp [hex])]
      have hj0 : j ≠ 0 := by
        rintro rfl
        rw [Nat.add_zero, hex] at hfree
        cases hfree
      obtain ⟨j', rfl⟩ : ∃ j', j = j' + 1 := ⟨j - 1, by omega⟩
      have hrec := ih (n + 1)
        ⟨j', by omega, by rw [show n + 1 + j' = n + (j' + 1) by omega]; exact hfree⟩
      refine ⟨hrec.1, by omega, ?_⟩
      intro i hni hlt
      by_cases hin : i = n
      · rw [hin]; exact hex
      · exact hrec.2.2 i (by omega) hlt

/-- C7: with `overwrite` off and a filename carrying an extension, `saveFile`
inserts the numbered placeholder right before the extension, writes to the
first candidate of the sequence `name.ext`, `name_001.ext`, `name_002.ext`,
... that does not collide with an existing file, returns the actually used
name, and leaves every pre-existing file untouched; concretely, two
successive saves of `report.html` onto an empty directory produce
`report.html` then the distinct `report_001.html`, the first file's content
surviving unchanged. -/
theorem c7_unique_save (fs : FS) (content base e : String)
    (hbrace : ('\x7b' : Char) ∉ base.data)
    (hdot : ('.' : Char) ∉ e.data)
    (hfree : ∃ j, j ≤ fs.files.length ∧
      existsFile fs (phCandidate base ("." ++ e) j) = false) :
    (insertPlaceholder (base ++ "." ++ e)
        = base ++ "\x7b_###\x7d" ++ ("." ++ e))
    ∧ (∃ n,
        (saveFile fs (base ++ "." ++ e) content false).1
            = phCandidate base ("." ++ e) n
        ∧ existsFile fs (saveFile fs (base ++ "." ++ e) content false).1 = false
        ∧ (∀ i, i < n → existsFile fs (phCandidate base ("." ++ e) i) = true)
        ∧ ((saveFile fs (base ++ "." ++ e) content false).2).files.lookup
              (saveFile fs (base ++ "." ++ e) content false).1 = some content
        ∧ (∀ p, p ≠ (saveFile fs (base ++ "." ++ e) content false).1 →
            ((saveFile fs (base ++ "." ++ e) content false).2).files.lookup p
              = fs.files.lookup p))
    ∧ (saveFile ⟨[]⟩ "report.html" "D1" false).1 = "report.html"
    ∧ (saveFile (saveFile ⟨[]⟩ "report.html" "D1" false).2
          "report.html" "D2" false).1 = "report_001.html"
    ∧ ("report_001.html" : String) ≠ "report.html"
    ∧ ((saveFile (saveFile ⟨[]⟩ "report.html" "D1" false).2
          "report.html" "D2" false).2).files.lookup "report.html" = some "D1" := by
  have hdata : (base ++ "." ++ e).data = base.data ++ '.' :: e.data := by
    rw [String.data_append, String.data_append]
    simp
  have hinsdata : (insertPlaceholder (base ++ "." ++ e)).data
      = base.data ++ phText ++ '.' :: e.data := by
    show insertPHAux (base ++ "." ++ e).data = _
    rw [hdata, insertPHAux_append _ _ hdot]
  have hins : insertPlaceholder (base ++ "." ++ e)
      = base ++ "\x7b_###\x7d" ++ ("." ++ e) := by
    apply String.ext
    rw [hinsdata, String.data_append, String.data_append, String.data_append]
    rfl
  have hsplit : splitPH (insertPlaceholder (base ++ "." ++ e))
      = some (base, "." ++ e) := by
    show (splitPHAux (insertPlaceholder (base ++ "." ++ e)).data).map _
        = some (base, "." ++ e)
    rw [hinsdata, splitPHAux_append _ _ hbrace]
    have h2 : (⟨'.' :: e.data⟩ : String) = "." ++ e := by
      apply String.ext
      rw [String.data_append]
      rfl
    simp [h2]
  have hsf : saveFile fs (base ++ "." ++ e) content false
      = (phCandidate base ("." ++ e)
          (findFreeN fs base ("." ++ e) 0 (fs.files.length + 1)),
        fsWrite fs
          (phCandidate base ("." ++ e)
            (findFreeN fs base ("." ++ e) 0 (fs.files.length + 1))) content) := by
    simp [saveFile, writeFileUnique, hsplit]
  obtain ⟨j, hjle, hjf⟩ := hfree
  have hspec := findFreeN_first_free fs base ("." ++ e) (fs.files.length + 1) 0
    ⟨j, by omega, by simpa using hjf⟩
  refine ⟨hins,
    ⟨findFreeN fs base ("." ++ e) 0 (fs.files.length + 1), ?_, ?_, ?_, ?_, ?_⟩,
    by rfl, by rfl, by decide, by rfl⟩
  · rw [hsf]
  · rw [hsf]
    exact hspec.1
  · intro i hi
    exact hspec.2.2 i (Nat.zero_le i) hi
  · rw [hsf]
    exact lookup_fsWrite_self _ _ _
  · intro p hp
    rw [hsf] at hp ⊢
    exact lookup_fsWrite_ne _ _ hp

/-- C7 witness: the theorem applied on a disk already holding `report.html`,
so the reported file is the `_001` candidate. -/
theorem c7_witness :
    (insertPlaceholder ("report" ++ "." ++ "html")
        = "report" ++ "\x7b_###\x7d" ++ ("." ++ "html"))
    ∧ (∃ n,
        (saveFile ⟨[("report.html", "D1")]⟩ ("report" ++ "." ++ "html") "D2" false).1
            = phCandidate "report" ("." ++ "html") n
        ∧ existsFile ⟨[("report.html", "D1")]⟩
            (saveFile ⟨[("report.html", "D1")]⟩ ("report" ++ "." ++ "html") "D2" false).1
            = false
        ∧ (∀ i, i < n →
            existsFile ⟨[("report.html", "D1")]⟩ (phCandidate "report" ("." ++ "html") i)
              = true)
        ∧ ((saveFile ⟨[("report.html", "D1")]⟩ ("report" ++ "." ++ "html") "D2" false).2).files.lookup
              (saveFile ⟨[("report.html", "D1")]⟩ ("report" ++ "." ++ "html") "D2" false).1
            = some "D2"
        ∧ (∀ p, p ≠ (saveFile ⟨[("report.html", "D1")]⟩ ("report" ++ "." ++ "html") "D2" false).1 →
            ((saveFile ⟨[("report.html", "D1")]⟩ ("report" ++ "." ++ "html") "D2" false).2).files.lookup p
              = (⟨[("report.html", "D1")]⟩ : FS).files.lookup p))
    ∧ (saveFile ⟨[]⟩ "report.html" "D1" false).1 = "report.html"
    ∧ (saveFile (saveFile ⟨[]⟩ "report.html" "D1" false).2
          "report.html" "D2" false).1 = "report_001.html"
    ∧ ("report_001.html" : String) ≠ "report.html"
    ∧ ((saveFile (saveFile ⟨[]⟩ "report.html" "D1" false).2
          "report.html" "D2" false).2).files.lookup "report.html" = some "D1" :=
  c7_unique_save ⟨[("report.html", "D1")]⟩ "D2" "report" "html"
    (by decide) (by decide) ⟨1, by decide, by decide⟩

end MRG
